import Mathlib

/-!
Shallow embedding of the cache2go cache-table engine (cachetable.go,
cacheitem.go) for checking the natural-language specification.

Modelling choices:
- `time.Time` / `time.Duration` are embedded as `Int` (nanoseconds); the
  current time is passed explicitly to every operation that reads the clock.
- The Go map `map[interface{}]*CacheItem` is an association list
  `List (Nat × CacheItem)`; keys and data are `Nat`/`Int`.
- User callbacks are opaque: a callback is identified by a `Nat`, and invoking
  one is recorded as an `Event` in a trace returned by each operation.  This
  captures which callbacks fire and in which order (the callbacks themselves
  are user code outside the repository).
- Locking is dropped (operations are atomic state transformers); logging is
  dropped.
-/

namespace Cache2go

/-- Mirrors the `CacheItem` struct of cacheitem.go.  `aboutToExpire` is the
item's expire-callback list (callback identifiers). -/
structure CacheItem where
  key : Nat
  data : Int
  lifeSpan : Int
  createdOn : Int
  accessedOn : Int
  accessCount : Int
  aboutToExpire : List Nat
deriving DecidableEq

/-- Mirrors `NewCacheItem`: both timestamps are the construction time `t`,
the access counter starts at 0 and the callback list is nil. -/
def NewCacheItem (key : Nat) (lifeSpan : Int) (data : Int) (t : Int) : CacheItem :=
  { key := key
    lifeSpan := lifeSpan
    createdOn := t
    accessedOn := t
    accessCount := 0
    aboutToExpire := []
    data := data }

/-- Mirrors `CacheItem.KeepAlive`: sets `accessedOn` to `now` and increments
`accessCount`. -/
def KeepAlive (item : CacheItem) (now : Int) : CacheItem :=
  { item with accessedOn := now, accessCount := item.accessCount + 1 }

/-- Mirrors `CacheItem.SetAboutToExpireCallback`: empties the list first when
it is non-empty, then appends. -/
def SetAboutToExpireCallback (item : CacheItem) (f : Nat) : CacheItem :=
  let i1 := if item.aboutToExpire.length > 0 then { item with aboutToExpire := [] } else item
  { i1 with aboutToExpire := i1.aboutToExpire ++ [f] }

/-- Mirrors `CacheItem.AddAboutToExpireCallback`: appends. -/
def AddAboutToExpireCallback (item : CacheItem) (f : Nat) : CacheItem :=
  { item with aboutToExpire := item.aboutToExpire ++ [f] }

/-- Mirrors `CacheItem.RemoveAboutToExpireCallback`: empties the list. -/
def RemoveAboutToExpireCallback (item : CacheItem) : CacheItem :=
  { item with aboutToExpire := [] }

/-- A callback invocation (or scheduler run) observed during an operation. -/
inductive Event where
  | added (cb : Nat) (key : Nat)
  | aboutToDelete (cb : Nat) (key : Nat)
  | expire (cb : Nat) (key : Nat)
  | expCheckRun
deriving DecidableEq

/-- Modelled from the spec: the two error values of the repository's
error.go (only referenced, not present under src/): `ErrKeyNotFound` and
`ErrKeyNotFoundOrLoadable`. -/
inductive CacheError where
  | keyNotFound
  | keyNotFoundOrLoadable
deriving DecidableEq

/-- Mirrors the `CacheTable` struct of cachetable.go.  `timerArmed` stands for
"the cleanup timer is armed" (`cleanupTimer` scheduled and not stopped). -/
structure CacheTable where
  name : String
  items : List (Nat × CacheItem)
  timerArmed : Bool
  cleanupInterval : Int
  loadData : Option (Nat → List Nat → Option CacheItem)
  addedItem : List Nat
  aboutToDeleteItem : List Nat

/-- Go map read `table.items[key]`. -/
def assocLookup (k : Nat) : List (Nat × CacheItem) → Option CacheItem
  | [] => none
  | p :: rest => if p.1 = k then some p.2 else assocLookup k rest

/-- Go map write `table.items[key] = item` (replace or append). -/
def assocPut (k : Nat) (v : CacheItem) : List (Nat × CacheItem) → List (Nat × CacheItem)
  | [] => [(k, v)]
  | p :: rest => if p.1 = k then (k, v) :: rest else p :: assocPut k v rest

/-- In-place mutation of the item stored at a key (the Go item methods mutate
through the shared pointer held by the map). -/
def assocUpdate (k : Nat) (f : CacheItem → CacheItem) :
    List (Nat × CacheItem) → List (Nat × CacheItem)
  | [] => []
  | p :: rest => if p.1 = k then (p.1, f p.2) :: rest else p :: assocUpdate k f rest

/-- Mirrors `CacheTable.Count`. -/
def Count (t : CacheTable) : Nat := t.items.length

/-- Mirrors `CacheTable.SetDataLoader`. -/
def SetDataLoader (t : CacheTable) (f : Nat → List Nat → Option CacheItem) : CacheTable :=
  { t with loadData := some f }

/-- Mirrors `CacheTable.SetAddedItemCallback`: removes all callbacks when the
list is non-empty, then appends. -/
def SetAddedItemCallback (t : CacheTable) (f : Nat) : CacheTable :=
  let t1 := if t.addedItem.length > 0 then { t with addedItem := [] } else t
  { t1 with addedItem := t1.addedItem ++ [f] }

/-- Mirrors `CacheTable.AddAddedItemCallback`: appends. -/
def AddAddedItemCallback (t : CacheTable) (f : Nat) : CacheTable :=
  { t with addedItem := t.addedItem ++ [f] }

/-- Mirrors `CacheTable.RemoveAddedItemCallbacks`. -/
def RemoveAddedItemCallbacks (t : CacheTable) : CacheTable :=
  { t with addedItem := [] }

/-- Mirrors `CacheTable.SetAboutToDeleteItemCallback`: removes all callbacks
when the list is non-empty, then appends. -/
def SetAboutToDeleteItemCallback (t : CacheTable) (f : Nat) : CacheTable :=
  let t1 := if t.aboutToDeleteItem.length > 0 then { t with aboutToDeleteItem := [] } else t
  { t1 with aboutToDeleteItem := t1.aboutToDeleteItem ++ [f] }

/-- Mirrors `CacheTable.AddAboutToDeleteItemCallback`: appends. -/
def AddAboutToDeleteItemCallback (t : CacheTable) (f : Nat) : CacheTable :=
  { t with aboutToDeleteItem := t.aboutToDeleteItem ++ [f] }

/-- Mirrors `CacheTable.RemoveAboutToDeleteItemCallback`. -/
def RemoveAboutToDeleteItemCallback (t : CacheTable) : CacheTable :=
  { t with aboutToDeleteItem := [] }

/-- The callbacks fired by `deleteInternal` for item `r` at `key`: first every
table-level about-to-delete callback (in list order, with the item), then every
item-level expire callback (in list order, with the key). -/
def deleteEvents (t : CacheTable) (key : Nat) (r : CacheItem) : List Event :=
  t.aboutToDeleteItem.map (fun cb => Event.aboutToDelete cb key)
    ++ r.aboutToExpire.map (fun cb => Event.expire cb key)

/-- Mirrors `CacheTable.deleteInternal`: on a miss returns `ErrKeyNotFound`
leaving the table untouched; on a hit fires the delete-protocol callbacks and
removes the key from the map. -/
def deleteInternal (t : CacheTable) (key : Nat) :
    Except CacheError CacheItem × CacheTable × List Event :=
  match assocLookup key t.items with
  | none => (Except.error CacheError.keyNotFound, t, [])
  | some r =>
    (Except.ok r,
     { t with items := t.items.filter (fun p => decide (p.1 ≠ key)) },
     deleteEvents t key r)

/-- Mirrors `CacheTable.Delete` (lock wrapper around `deleteInternal`). -/
def Delete (t : CacheTable) (key : Nat) :
    Except CacheError CacheItem × CacheTable × List Event :=
  deleteInternal t key

/-- The body of the `expirationCheck` loop over the item list, threading the
`smallestDuration` accumulator (0 means "unset", exactly as in the Go code).
Returns (surviving items, final smallestDuration, delete-protocol trace). -/
def expLoop (t : CacheTable) (now : Int) :
    List (Nat × CacheItem) → Int → List (Nat × CacheItem) × Int × List Event
  | [], s => ([], s, [])
  | p :: rest, s =>
    if p.2.lifeSpan = 0 then
      let r := expLoop t now rest s
      (p :: r.1, r.2)
    else if p.2.lifeSpan ≤ now - p.2.accessedOn then
      let r := expLoop t now rest s
      (r.1, r.2.1, deleteEvents t p.1 p.2 ++ r.2.2)
    else
      let rem := p.2.lifeSpan - (now - p.2.accessedOn)
      let r := expLoop t now rest (if s = 0 ∨ rem < s then rem else s)
      (p :: r.1, r.2)

/-- Mirrors `CacheTable.expirationCheck`: stops the armed timer, scans all
items (skipping immortals, deleting the ones past their deadline via the
delete protocol, tracking the smallest remaining lifetime), stores the result
in `cleanupInterval` and re-arms the timer when it is positive. -/
def expirationCheck (t : CacheTable) (now : Int) : CacheTable × List Event :=
  ({ t with items := (expLoop t now t.items 0).1,
            cleanupInterval := (expLoop t now t.items 0).2.1,
            timerArmed := decide (0 < (expLoop t now t.items 0).2.1) },
   Event.expCheckRun :: (expLoop t now t.items 0).2.2)

/-- The guard of `addInternal`'s scheduler trigger: the new item is mortal and
either no expiration timer is armed (`cleanupInterval == 0`, the snapshot
taken before the table lock is released) or the item's lifespan undercuts the
armed interval. -/
def addTriggerCond (t : CacheTable) (item : CacheItem) : Prop :=
  0 < item.lifeSpan ∧ (t.cleanupInterval = 0 ∨ item.lifeSpan < t.cleanupInterval)

instance (t : CacheTable) (item : CacheItem) : Decidable (addTriggerCond t item) := by
  unfold addTriggerCond
  infer_instance

/-- Mirrors `CacheTable.addInternal`: inserts the item, snapshots
`cleanupInterval`, fires the added-item callbacks, and triggers
`expirationCheck` exactly when `addTriggerCond` holds. -/
def addInternal (t : CacheTable) (item : CacheItem) (now : Int) :
    CacheTable × List Event :=
  if addTriggerCond t item then
    ((expirationCheck { t with items := assocPut item.key item t.items } now).1,
     t.addedItem.map (fun cb => Event.added cb item.key)
       ++ (expirationCheck { t with items := assocPut item.key item t.items } now).2)
  else
    ({ t with items := assocPut item.key item t.items },
     t.addedItem.map (fun cb => Event.added cb item.key))

/-- Mirrors `CacheTable.Add`: builds a fresh item with `NewCacheItem` and runs
the add protocol; returns the fresh item. -/
def Add (t : CacheTable) (key : Nat) (lifeSpan data : Int) (now : Int) :
    CacheItem × CacheTable × List Event :=
  let item := NewCacheItem key lifeSpan data now
  (item, addInternal t item now)

/-- Mirrors `CacheTable.NotFoundAdd`: returns `false` leaving the table alone
when the key exists, otherwise inserts via the add protocol and returns
`true`. -/
def NotFoundAdd (t : CacheTable) (key : Nat) (lifeSpan data : Int) (now : Int) :
    Bool × CacheTable × List Event :=
  match assocLookup key t.items with
  | some _ => (false, t, [])
  | none => (true, addInternal t (NewCacheItem key lifeSpan data now) now)

/-- Mirrors `CacheTable.Value`: on a hit keeps the item alive and returns it;
on a miss consults the loader — `ErrKeyNotFound` when none is configured,
`ErrKeyNotFoundOrLoadable` when it declines, otherwise
`Add(key, item.lifeSpan, item.data)` and return of the loader's item. -/
def Value (t : CacheTable) (key : Nat) (args : List Nat) (now : Int) :
    Except CacheError CacheItem × CacheTable × List Event :=
  match assocLookup key t.items with
  | some r =>
    let r' := KeepAlive r now
    (Except.ok r', { t with items := assocPut key r' t.items }, [])
  | none =>
    match t.loadData with
    | some loader =>
      match loader key args with
      | some item => (Except.ok item, (Add t key item.lifeSpan item.data now).2)
      | none => (Except.error CacheError.keyNotFoundOrLoadable, t, [])
    | none => (Except.error CacheError.keyNotFound, t, [])

/-- Mirrors `CacheTable.Flush`: empty map, interval 0, timer stopped, no
callbacks fired, everything else untouched. -/
def Flush (t : CacheTable) : CacheTable × List Event :=
  ({ t with items := [], cleanupInterval := 0, timerArmed := false }, [])

/-- Mirrors the `CacheItemPair` struct. -/
structure CacheItemPair where
  Key : Nat
  AccessCount : Int
deriving DecidableEq

/-- One insertion step of sorting by `CacheItemPairList.Less`
(`p[i].AccessCount > p[j].AccessCount`, i.e. descending access count). -/
def insertPair (x : CacheItemPair) : List CacheItemPair → List CacheItemPair
  | [] => [x]
  | y :: ys => if y.AccessCount < x.AccessCount then x :: y :: ys else y :: insertPair x ys

/-- `sort.Sort` on a `CacheItemPairList`: some permutation that is descending
in access count (ties in arbitrary order); embedded as insertion sort. -/
def sortPairs : List CacheItemPair → List CacheItemPair
  | [] => []
  | x :: xs => insertPair x (sortPairs xs)

/-- Mirrors `CacheTable.MostAccessed`: snapshot (key, accessCount) pairs, sort
descending, then resolve up to `count` items back out of the map. -/
def MostAccessed (t : CacheTable) (count : Int) : List CacheItem :=
  let p := t.items.map (fun kv => CacheItemPair.mk kv.1 kv.2.accessCount)
  let sorted := sortPairs p
  (sorted.take count.toNat).filterMap (fun pr => assocLookup pr.Key t.items)

/-- Well-formedness of a table state as maintained by the Go map: keys are
unique. -/
def WF (t : CacheTable) : Prop := (t.items.map Prod.fst).Nodup

/-- All mutating operations of the table (and of items reachable through it),
for stating whole-system invariants. -/
inductive Op where
  | add (key : Nat) (lifeSpan data : Int)
  | notFoundAdd (key : Nat) (lifeSpan data : Int)
  | delete (key : Nat)
  | value (key : Nat) (args : List Nat)
  | flush
  | expCheck
  | setAddedCb (f : Nat)
  | addAddedCb (f : Nat)
  | removeAddedCbs
  | setDeleteCb (f : Nat)
  | addDeleteCb (f : Nat)
  | removeDeleteCbs
  | setItemExpireCb (key f : Nat)
  | addItemExpireCb (key f : Nat)
  | removeItemExpireCbs (key : Nat)

/-- The table state after running one operation at time `now`. -/
def step (t : CacheTable) (op : Op) (now : Int) : CacheTable :=
  match op with
  | Op.add k l d => (Add t k l d now).2.1
  | Op.notFoundAdd k l d => (NotFoundAdd t k l d now).2.1
  | Op.delete k => (Delete t k).2.1
  | Op.value k args => (Value t k args now).2.1
  | Op.flush => (Flush t).1
  | Op.expCheck => (expirationCheck t now).1
  | Op.setAddedCb f => SetAddedItemCallback t f
  | Op.addAddedCb f => AddAddedItemCallback t f
  | Op.removeAddedCbs => RemoveAddedItemCallbacks t
  | Op.setDeleteCb f => SetAboutToDeleteItemCallback t f
  | Op.addDeleteCb f => AddAboutToDeleteItemCallback t f
  | Op.removeDeleteCbs => RemoveAboutToDeleteItemCallback t
  | Op.setItemExpireCb k f =>
      { t with items := assocUpdate k (fun i => SetAboutToExpireCallback i f) t.items }
  | Op.addItemExpireCb k f =>
      { t with items := assocUpdate k (fun i => AddAboutToExpireCallback i f) t.items }
  | Op.removeItemExpireCbs k =>
      { t with items := assocUpdate k RemoveAboutToExpireCallback t.items }

/-! ### Example states used by witnesses and counterexamples -/

/-- An immortal item with a given key and access count. -/
def exItem (k : Nat) (c : Int) : CacheItem :=
  { key := k, data := 0, lifeSpan := 0, createdOn := 0, accessedOn := 0,
    accessCount := c, aboutToExpire := [] }

/-- A table holding items with access counts 5, 1, 9, 3. -/
def exTable : CacheTable :=
  { name := "t", items := [(0, exItem 0 5), (1, exItem 1 1), (2, exItem 2 9), (3, exItem 3 3)],
    timerArmed := false, cleanupInterval := 0, loadData := none,
    addedItem := [], aboutToDeleteItem := [] }

/-! ### Association-list lemmas -/

lemma assocLookup_put_self (k : Nat) (v : CacheItem) (l : List (Nat × CacheItem)) :
    assocLookup k (assocPut k v l) = some v := by
  induction l with
  | nil => simp [assocPut, assocLookup]
  | cons p rest ih =>
    by_cases h : p.1 = k
    · simp [assocPut, assocLookup, h]
    · simp [assocPut, assocLookup, h, ih]

lemma assocLookup_mem {k : Nat} {v : CacheItem} {l : List (Nat × CacheItem)}
    (h : assocLookup k l = some v) : (k, v) ∈ l := by
  induction l with
  | nil => simp [assocLookup] at h
  | cons p rest ih =>
    cases p with
    | mk a b =>
      by_cases hp : a = k
      · simp [assocLookup, hp] at h
        subst hp
        subst h
        exact List.mem_cons_self _ _
      · simp [assocLookup, hp] at h
        exact List.mem_cons_of_mem _ (ih h)

lemma mem_assocPut {p : Nat × CacheItem} {k : Nat} {v : CacheItem}
    {l : List (Nat × CacheItem)} (h : p ∈ assocPut k v l) : p = (k, v) ∨ p ∈ l := by
  induction l with
  | nil => simpa [assocPut] using h
  | cons q rest ih =>
    by_cases hq : q.1 = k
    · simp [assocPut, hq] at h
      rcases h with h | h
      · exact Or.inl h
      · exact Or.inr (List.mem_cons_of_mem _ h)
    · simp [assocPut, hq] at h
      rcases h with h | h
      · exact Or.inr (by simp [h])
      · rcases ih h with h' | h'
        · exact Or.inl h'
        · exact Or.inr (List.mem_cons_of_mem _ h')

lemma mem_assocUpdate {p : Nat × CacheItem} {k : Nat} {f : CacheItem → CacheItem}
    {l : List (Nat × CacheItem)} (h : p ∈ assocUpdate k f l) :
    p ∈ l ∨ ∃ v, (k, v) ∈ l ∧ p = (k, f v) := by
  induction l with
  | nil => simp [assocUpdate] at h
  | cons q rest ih =>
    by_cases hq : q.1 = k
    · simp [assocUpdate, hq] at h
      rcases h with h | h
      · refine Or.inr ⟨q.2, ?_, ?_⟩
        · subst hq
          simp
        · simp [h, hq]
      · exact Or.inl (List.mem_cons_of_mem _ h)
    · simp [assocUpdate, hq] at h
      rcases h with h | h
      · exact Or.inl (by simp [h])
      · rcases ih h with h' | ⟨v, hv, hp⟩
        · exact Or.inl (List.mem_cons_of_mem _ h')
        · exact Or.inr ⟨v, List.mem_cons_of_mem _ hv, hp⟩

lemma assocLookup_filter {pred : Nat × CacheItem → Bool} {k : Nat} {v : CacheItem}
    {l : List (Nat × CacheItem)} (h : assocLookup k l = some v)
    (hp : pred (k, v) = true) : assocLookup k (l.filter pred) = some v := by
  induction l with
  | nil => simp [assocLookup] at h
  | cons q rest ih =>
    by_cases hq : q.1 = k
    · simp [assocLookup, hq] at h
      have hqv : q = (k, v) := by
        cases q
        simp_all
      rw [hqv]
      simp [hp, assocLookup]
    · simp [assocLookup, hq] at h
      by_cases hpq : pred q = true
      · simp [List.filter_cons, hpq, assocLookup, hq]
        exact ih h
      · simp [List.filter_cons, hpq]
        exact ih h

/-! ### The expiration scan as a filter -/

/-- The survival test of one `expirationCheck` scan at time `now`: immortal
(`lifeSpan == 0`) or not yet past its deadline. -/
def keepB (now : Int) (p : Nat × CacheItem) : Bool :=
  decide (p.2.lifeSpan = 0) || decide (now - p.2.accessedOn < p.2.lifeSpan)

lemma expLoop_items (t : CacheTable) (now : Int) (l : List (Nat × CacheItem)) (s : Int) :
    (expLoop t now l s).1 = l.filter (keepB now) := by
  induction l generalizing s with
  | nil => rfl
  | cons p rest ih =>
    by_cases h0 : p.2.lifeSpan = 0
    · simp [expLoop, h0, ih, keepB, List.filter_cons]
    · by_cases h1 : p.2.lifeSpan ≤ now - p.2.accessedOn
      · have h2 : ¬ (now - p.2.accessedOn < p.2.lifeSpan) := not_lt.mpr h1
        simp [expLoop, h0, h1, h2, ih, keepB, List.filter_cons]
      · have h2 : now - p.2.accessedOn < p.2.lifeSpan := not_le.mp h1
        simp [expLoop, h0, h1, h2, ih, keepB, List.filter_cons]

lemma expirationCheck_items (t : CacheTable) (now : Int) :
    (expirationCheck t now).1.items = t.items.filter (keepB now) := by
  simp [expirationCheck, expLoop_items]

lemma mem_expirationCheck_items {p : Nat × CacheItem} {t : CacheTable} {now : Int}
    (h : p ∈ (expirationCheck t now).1.items) : p ∈ t.items := by
  rw [expirationCheck_items] at h
  exact (List.mem_filter.mp h).1

/-! ### Lookup and membership after the add protocol -/

lemma lookup_addInternal (t : CacheTable) (i : CacheItem) (now : Int)
    (hacc : i.accessedOn = now) :
    assocLookup i.key (addInternal t i now).1.items = some i := by
  unfold addInternal
  by_cases hc : addTriggerCond t i
  · rw [if_pos hc]
    rw [expirationCheck_items]
    refine assocLookup_filter (assocLookup_put_self _ _ _) ?_
    have hls : 0 < i.lifeSpan := hc.1
    simp [keepB, hacc]
    omega
  · rw [if_neg hc]
    exact assocLookup_put_self _ _ _

lemma mem_addInternal {p : Nat × CacheItem} {t : CacheTable} {i : CacheItem} {now : Int}
    (h : p ∈ (addInternal t i now).1.items) : p = (i.key, i) ∨ p ∈ t.items := by
  unfold addInternal at h
  by_cases hc : addTriggerCond t i
  · rw [if_pos hc] at h
    exact mem_assocPut (mem_expirationCheck_items h)
  · rw [if_neg hc] at h
    exact mem_assocPut h

/-! ### Claim theorems -/

/-- C6: `Flush` empties the item map (`Count` becomes 0), resets
`cleanupInterval` to 0, disarms the timer, fires no callbacks, and leaves the
name, the data loader and both table-level callback lists unchanged. -/
theorem spec_C6 (t : CacheTable) :
    (Flush t).1.items = [] ∧ Count (Flush t).1 = 0 ∧ (Flush t).1.cleanupInterval = 0
    ∧ (Flush t).1.timerArmed = false ∧ (Flush t).2 = []
    ∧ (Flush t).1.name = t.name ∧ (Flush t).1.loadData = t.loadData
    ∧ (Flush t).1.addedItem = t.addedItem
    ∧ (Flush t).1.aboutToDeleteItem = t.aboutToDeleteItem :=
  ⟨rfl, rfl, rfl, rfl, rfl, rfl, rfl, rfl, rfl⟩

/-- C7: in the add protocol the trace starts with the added-item callbacks in
registration order, and the expiration scheduler runs if and only if the new
item's lifespan is positive and either the snapshotted `cleanupInterval` is 0
or the lifespan is strictly smaller than it. -/
theorem spec_C7 (t : CacheTable) (item : CacheItem) (now : Int) :
    (Event.expCheckRun ∈ (addInternal t item now).2
      ↔ (0 < item.lifeSpan ∧ (t.cleanupInterval = 0 ∨ item.lifeSpan < t.cleanupInterval)))
    ∧ ∃ rest, (addInternal t item now).2
        = t.addedItem.map (fun cb => Event.added cb item.key) ++ rest := by
  unfold addInternal
  by_cases hc : addTriggerCond t item
  · rw [if_pos hc]
    constructor
    · refine iff_of_true ?_ hc
      refine List.mem_append_right _ ?_
      simp [expirationCheck]
    · exact ⟨_, rfl⟩
  · rw [if_neg hc]
    constructor
    · refine iff_of_false ?_ hc
      simp [List.mem_map]
    · exact ⟨[], by simp⟩

/-- C4: `NotFoundAdd` returns `false` and leaves the table (and trace) fully
unchanged when the key is present; on an absent key it returns `true`, the key
maps to the freshly constructed item afterwards, and the outcome is exactly
the add protocol run on the fresh item. -/
theorem spec_C4 (t : CacheTable) (k : Nat) (l d now : Int) :
    ((assocLookup k t.items).isSome → NotFoundAdd t k l d now = (false, t, []))
    ∧ (assocLookup k t.items = none →
        (NotFoundAdd t k l d now).1 = true
        ∧ assocLookup k (NotFoundAdd t k l d now).2.1.items = some (NewCacheItem k l d now)
        ∧ (NotFoundAdd t k l d now).2 = addInternal t (NewCacheItem k l d now) now) := by
  constructor
  · intro h
    cases hh : assocLookup k t.items with
    | none => rw [hh] at h; simp at h
    | some r => simp [NotFoundAdd, hh]
  · intro h
    refine ⟨by simp [NotFoundAdd, h], ?_, by simp [NotFoundAdd, h]⟩
    have := lookup_addInternal t (NewCacheItem k l d now) now rfl
    simpa [NotFoundAdd, h, NewCacheItem] using this

/-- C4 witness: on the concrete table, `NotFoundAdd` of the absent key 7
returns `true`, makes 7 retrievable and runs the add protocol. -/
theorem spec_C4_witness :
    (NotFoundAdd exTable 7 4 0 10).1 = true
    ∧ assocLookup 7 (NotFoundAdd exTable 7 4 0 10).2.1.items = some (NewCacheItem 7 4 0 10)
    ∧ (NotFoundAdd exTable 7 4 0 10).2 = addInternal exTable (NewCacheItem 7 4 0 10) 10 :=
  (spec_C4 exTable 7 4 0 10).2 (by decide)

/-- C10: `NewCacheItem` starts with access count 0, `accessedOn` equal to
`createdOn` (the construction time), and an empty expire-callback list; `Add`
returns and inserts exactly that fresh item, and so does `NotFoundAdd` on an
absent key. -/
theorem spec_C10 (k : Nat) (l d now : Int) (t : CacheTable) :
    (NewCacheItem k l d now).accessCount = 0
    ∧ (NewCacheItem k l d now).accessedOn = (NewCacheItem k l d now).createdOn
    ∧ (NewCacheItem k l d now).createdOn = now
    ∧ (NewCacheItem k l d now).aboutToExpire = []
    ∧ (Add t k l d now).1 = NewCacheItem k l d now
    ∧ assocLookup k (Add t k l d now).2.1.items = some (NewCacheItem k l d now)
    ∧ (assocLookup k t.items = none →
        assocLookup k (NotFoundAdd t k l d now).2.1.items = some (NewCacheItem k l d now)) := by
  refine ⟨rfl, rfl, rfl, rfl, rfl, ?_, ?_⟩
  · have := lookup_addInternal t (NewCacheItem k l d now) now rfl
    simpa [Add, NewCacheItem] using this
  · intro h
    have := lookup_addInternal t (NewCacheItem k l d now) now rfl
    simpa [NotFoundAdd, h, NewCacheItem] using this

/-- C10 witness: the fresh-insertion fact evaluated on the concrete table with
the absent key 7. -/
theorem spec_C10_witness :
    assocLookup 7 (NotFoundAdd exTable 7 1 2 3).2.1.items = some (NewCacheItem 7 1 2 3) :=
  (spec_C10 7 1 2 3 exTable).2.2.2.2.2.2 (by decide)

/-- A loader result whose bookkeeping fields differ from a fresh item's. -/
def cexLoadedItem : CacheItem :=
  { key := 9, data := 7, lifeSpan := 4, createdOn := 0, accessedOn := 0,
    accessCount := 5, aboutToExpire := [] }

/-- A loader that always produces `cexLoadedItem`. -/
def cexLoader : Nat → List Nat → Option CacheItem := fun _ _ => some cexLoadedItem

/-- An empty table with `cexLoader` configured. -/
def cexLoaderTable : CacheTable :=
  { name := "t", items := [], timerArmed := false, cleanupInterval := 0,
    loadData := some cexLoader, addedItem := [], aboutToDeleteItem := [] }

/-- C5: on an absent key `Delete` fails with `KeyNotFound` leaving the table
untouched, `Value` without a loader fails with `KeyNotFound`, and `Value`
whose loader declines fails with `KeyNotFoundOrLoadable` leaving the key
absent; no other input produces these errors — on a present key neither
`Delete` nor `Value` errors, and on a miss whose loader returns an item
`Value` succeeds as well. -/
theorem spec_C5 (t : CacheTable) (k : Nat) (args : List Nat) (now : Int) :
    (assocLookup k t.items = none →
      Delete t k = (Except.error CacheError.keyNotFound, t, [])
      ∧ (t.loadData = none → Value t k args now = (Except.error CacheError.keyNotFound, t, []))
      ∧ (∀ loader, t.loadData = some loader → loader k args = none →
          Value t k args now = (Except.error CacheError.keyNotFoundOrLoadable, t, [])
          ∧ assocLookup k (Value t k args now).2.1.items = none))
    ∧ (∀ r, assocLookup k t.items = some r →
        (Delete t k).1 = Except.ok r
        ∧ (Value t k args now).1 = Except.ok (KeepAlive r now))
    ∧ (∀ loader li, assocLookup k t.items = none → t.loadData = some loader →
        loader k args = some li → (Value t k args now).1 = Except.ok li) := by
  refine ⟨?_, ?_, ?_⟩
  · intro h
    refine ⟨by simp [Delete, deleteInternal, h], fun hl => by simp [Value, h, hl], ?_⟩
    intro loader hl hmiss
    constructor
    · simp [Value, h, hl, hmiss]
    · simp [Value, h, hl, hmiss]
  · intro r hr
    exact ⟨by simp [Delete, deleteInternal, hr], by simp [Value, hr]⟩
  · intro loader li h hl hres
    simp [Value, h, hl, hres]

/-- C5 witness: the concrete table rejects deleting the absent key 9 with
`KeyNotFound` leaving the table unchanged, and `Value` on a miss whose
loader produces an item returns `ok`, not an error. -/
theorem spec_C5_witness :
    Delete exTable 9 = (Except.error CacheError.keyNotFound, exTable, [])
    ∧ (Value cexLoaderTable 1 [] 10).1 = Except.ok cexLoadedItem :=
  ⟨((spec_C5 exTable 9 [] 0).1 (by decide)).1,
   (spec_C5 cexLoaderTable 1 [] 10).2.2 cexLoader cexLoadedItem rfl rfl rfl⟩

/-! ### C1: what `Value` returns versus what it inserts -/

/-- C1 counterexample: on a miss the loader's item is returned, but the map
afterwards holds the fresh item built by `Add` — here the two differ (key,
timestamps and access count), so the returned item is not the item the table
holds at that key. -/
theorem spec_C1_counterexample :
    (Value cexLoaderTable 1 [] 10).1 = Except.ok cexLoadedItem
    ∧ assocLookup 1 (Value cexLoaderTable 1 [] 10).2.1.items = some (NewCacheItem 1 4 7 10)
    ∧ NewCacheItem 1 4 7 10 ≠ cexLoadedItem := by
  refine ⟨rfl, rfl, by decide⟩

/-- C1 (amended): on a miss with a loader that returns an item, `Value` runs
`Add(key, item.lifeSpan, item.data)` and returns the loader's item; the map
afterwards holds at that key the fresh item `NewCacheItem` built by `Add`
(same lifespan and data, requested key, timestamps of the insertion, zero
access count), which need not be the returned item. -/
theorem spec_C1 (t : CacheTable) (k : Nat) (args : List Nat) (now : Int)
    (loader : Nat → List Nat → Option CacheItem) (li : CacheItem)
    (h1 : assocLookup k t.items = none) (h2 : t.loadData = some loader)
    (h3 : loader k args = some li) :
    (Value t k args now).1 = Except.ok li
    ∧ assocLookup k (Value t k args now).2.1.items
        = some (NewCacheItem k li.lifeSpan li.data now)
    ∧ (Value t k args now).2 = (Add t k li.lifeSpan li.data now).2 := by
  refine ⟨by simp [Value, h1, h2, h3], ?_, by simp [Value, h1, h2, h3]⟩
  have hlk := lookup_addInternal t (NewCacheItem k li.lifeSpan li.data now) now rfl
  simp only [Value, h1, h2, h3, Add]
  simpa [NewCacheItem] using hlk

/-- C1 witness: the amended statement evaluated on the concrete loader
table. -/
theorem spec_C1_witness :
    (Value cexLoaderTable 1 [] 10).1 = Except.ok cexLoadedItem
    ∧ assocLookup 1 (Value cexLoaderTable 1 [] 10).2.1.items
        = some (NewCacheItem 1 cexLoadedItem.lifeSpan cexLoadedItem.data 10)
    ∧ (Value cexLoaderTable 1 [] 10).2
        = (Add cexLoaderTable 1 cexLoadedItem.lifeSpan cexLoadedItem.data 10).2 :=
  spec_C1 cexLoaderTable 1 [] 10 cexLoader cexLoadedItem rfl rfl rfl

/-! ### C8: set/add callback semantics and firing order -/

/-- The added-item callbacks fired in a trace, in order. -/
def addedCbsFired (evs : List Event) : List Nat :=
  evs.filterMap (fun e => match e with | Event.added cb _ => some cb | _ => none)

/-- The table-level about-to-delete callbacks fired in a trace, in order. -/
def deleteCbsFired (evs : List Event) : List Nat :=
  evs.filterMap (fun e => match e with | Event.aboutToDelete cb _ => some cb | _ => none)

lemma filterMap_map_none {α β γ : Type} (f : α → β) (g : β → Option γ) (l : List α)
    (h : ∀ a, g (f a) = none) : (l.map f).filterMap g = [] := by
  induction l with
  | nil => rfl
  | cons a l ih => simp [List.filterMap_cons, h, ih]

lemma filterMap_map_some {α β : Type} (f : α → β) (g : β → Option α) (l : List α)
    (h : ∀ a, g (f a) = some a) : (l.map f).filterMap g = l := by
  induction l with
  | nil => rfl
  | cons a l ih => simp [List.filterMap_cons, h, ih]

lemma addedCbsFired_append (a b : List Event) :
    addedCbsFired (a ++ b) = addedCbsFired a ++ addedCbsFired b := by
  simp [addedCbsFired, List.filterMap_append]

lemma addedCbsFired_map_added (l : List Nat) (k : Nat) :
    addedCbsFired (l.map (fun cb => Event.added cb k)) = l :=
  filterMap_map_some _ _ _ (fun _ => rfl)

lemma addedCbsFired_deleteEvents (t : CacheTable) (k : Nat) (r : CacheItem) :
    addedCbsFired (deleteEvents t k r) = [] := by
  unfold deleteEvents addedCbsFired
  rw [List.filterMap_append]
  rw [filterMap_map_none _ _ _ (fun _ => rfl), filterMap_map_none _ _ _ (fun _ => rfl)]
  rfl

lemma addedCbsFired_expLoop (t : CacheTable) (now : Int)
    (l : List (Nat × CacheItem)) (s : Int) :
    addedCbsFired (expLoop t now l s).2.2 = [] := by
  induction l generalizing s with
  | nil => rfl
  | cons p rest ih =>
    by_cases h0 : p.2.lifeSpan = 0
    · simp only [expLoop, if_pos h0]
      exact ih s
    · by_cases h1 : p.2.lifeSpan ≤ now - p.2.accessedOn
      · simp only [expLoop, if_neg h0, if_pos h1]
        rw [addedCbsFired_append, addedCbsFired_deleteEvents, ih]
        rfl
      · simp only [expLoop, if_neg h0, if_neg h1]
        exact ih _

lemma addedCbsFired_expirationCheck (t : CacheTable) (now : Int) :
    addedCbsFired (expirationCheck t now).2 = [] := by
  unfold expirationCheck
  simp only [addedCbsFired, List.filterMap_cons]
  exact addedCbsFired_expLoop t now t.items 0

lemma addedCbsFired_addInternal (t : CacheTable) (i : CacheItem) (now : Int) :
    addedCbsFired (addInternal t i now).2 = t.addedItem := by
  unfold addInternal
  by_cases hc : addTriggerCond t i
  · rw [if_pos hc]
    simp only
    rw [addedCbsFired_append, addedCbsFired_map_added, addedCbsFired_expirationCheck,
      List.append_nil]
  · rw [if_neg hc]
    simp only
    rw [addedCbsFired_map_added]

lemma deleteCbsFired_append (a b : List Event) :
    deleteCbsFired (a ++ b) = deleteCbsFired a ++ deleteCbsFired b := by
  simp [deleteCbsFired, List.filterMap_append]

lemma deleteCbsFired_map_about (k : Nat) (l : List Nat) :
    deleteCbsFired (l.map (fun cb => Event.aboutToDelete cb k)) = l :=
  filterMap_map_some _ _ _ (fun _ => rfl)

lemma deleteCbsFired_map_expire (k : Nat) (l : List Nat) :
    deleteCbsFired (l.map (fun cb => Event.expire cb k)) = [] :=
  filterMap_map_none _ _ _ (fun _ => rfl)

lemma deleteCbsFired_deleteEvents (t : CacheTable) (k : Nat) (r : CacheItem) :
    deleteCbsFired (deleteEvents t k r) = t.aboutToDeleteItem := by
  unfold deleteEvents
  rw [deleteCbsFired_append, deleteCbsFired_map_about, deleteCbsFired_map_expire,
    List.append_nil]

lemma setAddedItemCallback_addedItem (t : CacheTable) (f : Nat) :
    (SetAddedItemCallback t f).addedItem = [f] := by
  unfold SetAddedItemCallback
  by_cases h : t.addedItem.length > 0
  · simp [h]
  · have h0 : t.addedItem = [] := List.length_eq_zero.mp (Nat.eq_zero_of_not_pos h)
    simp [h, h0]

lemma setAboutToDeleteItemCallback_list (t : CacheTable) (f : Nat) :
    (SetAboutToDeleteItemCallback t f).aboutToDeleteItem = [f] := by
  unfold SetAboutToDeleteItemCallback
  by_cases h : t.aboutToDeleteItem.length > 0
  · simp [h]
  · have h0 : t.aboutToDeleteItem = [] := List.length_eq_zero.mp (Nat.eq_zero_of_not_pos h)
    simp [h, h0]

lemma setAboutToExpireCallback_list (it : CacheItem) (f : Nat) :
    (SetAboutToExpireCallback it f).aboutToExpire = [f] := by
  unfold SetAboutToExpireCallback
  by_cases h : it.aboutToExpire.length > 0
  · simp [h]
  · have h0 : it.aboutToExpire = [] := List.length_eq_zero.mp (Nat.eq_zero_of_not_pos h)
    simp [h, h0]

lemma foldl_addAdded_addedItem (gs : List Nat) (t0 : CacheTable) :
    (List.foldl AddAddedItemCallback t0 gs).addedItem = t0.addedItem ++ gs := by
  induction gs generalizing t0 with
  | nil => simp
  | cons g gs ih => simp [ih, AddAddedItemCallback]

lemma foldl_addDelete_list (gs : List Nat) (t0 : CacheTable) :
    (List.foldl AddAboutToDeleteItemCallback t0 gs).aboutToDeleteItem
      = t0.aboutToDeleteItem ++ gs := by
  induction gs generalizing t0 with
  | nil => simp
  | cons g gs ih => simp [ih, AddAboutToDeleteItemCallback]

lemma foldl_addDelete_items (gs : List Nat) (t0 : CacheTable) :
    (List.foldl AddAboutToDeleteItemCallback t0 gs).items = t0.items := by
  induction gs generalizing t0 with
  | nil => rfl
  | cons g gs ih => simp [ih, AddAboutToDeleteItemCallback]

lemma setAboutToDeleteItemCallback_items (t : CacheTable) (f : Nat) :
    (SetAboutToDeleteItemCallback t f).items = t.items := by
  unfold SetAboutToDeleteItemCallback
  by_cases h : t.aboutToDeleteItem.length > 0 <;> simp [h]

/-- C8: "set" registration leaves a single-element callback list while "add"
appends preserving order — for the item's expire callbacks and both
table-level lists — so after a set of `f` and adds of `gs` the list is
`f :: gs`, an `Add` fires exactly those added-item callbacks in that order,
and a `Delete` of a present key fires exactly those about-to-delete callbacks
in that order. -/
theorem spec_C8 (t : CacheTable) (it : CacheItem) (f : Nat) (gs : List Nat)
    (k : Nat) (l d now : Int) :
    (SetAddedItemCallback t f).addedItem = [f]
    ∧ (AddAddedItemCallback t f).addedItem = t.addedItem ++ [f]
    ∧ (SetAboutToDeleteItemCallback t f).aboutToDeleteItem = [f]
    ∧ (AddAboutToDeleteItemCallback t f).aboutToDeleteItem = t.aboutToDeleteItem ++ [f]
    ∧ (SetAboutToExpireCallback it f).aboutToExpire = [f]
    ∧ (AddAboutToExpireCallback it f).aboutToExpire = it.aboutToExpire ++ [f]
    ∧ (List.foldl AddAddedItemCallback (SetAddedItemCallback t f) gs).addedItem = f :: gs
    ∧ addedCbsFired (Add (List.foldl AddAddedItemCallback (SetAddedItemCallback t f) gs)
        k l d now).2.2 = f :: gs
    ∧ (assocLookup k t.items = some it →
        deleteCbsFired (Delete (List.foldl AddAboutToDeleteItemCallback
          (SetAboutToDeleteItemCallback t f) gs) k).2.2 = f :: gs) := by
  have hfold : (List.foldl AddAddedItemCallback (SetAddedItemCallback t f) gs).addedItem
      = f :: gs := by
    rw [foldl_addAdded_addedItem, setAddedItemCallback_addedItem]
    rfl
  refine ⟨setAddedItemCallback_addedItem t f, rfl, setAboutToDeleteItemCallback_list t f,
    rfl, setAboutToExpireCallback_list it f, rfl, hfold, ?_, ?_⟩
  · show addedCbsFired (addInternal _ (NewCacheItem k l d now) now).2 = f :: gs
    rw [addedCbsFired_addInternal, hfold]
  · intro hk
    have hitems : (List.foldl AddAboutToDeleteItemCallback
        (SetAboutToDeleteItemCallback t f) gs).items = t.items := by
      rw [foldl_addDelete_items, setAboutToDeleteItemCallback_items]
    have hlist : (List.foldl AddAboutToDeleteItemCallback
        (SetAboutToDeleteItemCallback t f) gs).aboutToDeleteItem = f :: gs := by
      rw [foldl_addDelete_list, setAboutToDeleteItemCallback_list]
      rfl
    unfold Delete deleteInternal
    rw [hitems, hk]
    simp only
    rw [deleteCbsFired_deleteEvents, hlist]

/-- C8 witness: set callback 10 then add 11 and 12; deleting the present key 2
fires exactly 10, 11, 12 in that order. -/
theorem spec_C8_witness :
    deleteCbsFired (Delete (List.foldl AddAboutToDeleteItemCallback
      (SetAboutToDeleteItemCallback exTable 10) [11, 12]) 2).2.2 = 10 :: [11, 12] :=
  (spec_C8 exTable (exItem 2 9) 10 [11, 12] 2 0 0 0).2.2.2.2.2.2.2.2 (by decide)

/-! ### C2: the expiration scan -/

/-- The `smallestDuration` accumulation of `expirationCheck`: 0 means
"unset", any candidate strictly below the current value replaces it. -/
def minAux : Int → List Int → Int
  | s, [] => s
  | s, r :: rs => minAux (if s = 0 ∨ r < s then r else s) rs

/-- The remaining lifetimes collected by the scan, with the code's guards
(`lifeSpan != 0` and not yet expired), in scan order. -/
def remsGo (now : Int) (l : List (Nat × CacheItem)) : List Int :=
  l.filterMap (fun p =>
    if p.2.lifeSpan = 0 then none
    else if p.2.lifeSpan ≤ now - p.2.accessedOn then none
    else some (p.2.lifeSpan - (now - p.2.accessedOn)))

/-- The remaining lifetimes `lifeSpan - (now - accessedOn)` of the surviving
mortal (`lifeSpan > 0`) items, as the claim words them. -/
def remsOf (now : Int) (l : List (Nat × CacheItem)) : List Int :=
  l.filterMap (fun p =>
    if 0 < p.2.lifeSpan ∧ now - p.2.accessedOn < p.2.lifeSpan
    then some (p.2.lifeSpan - (now - p.2.accessedOn)) else none)

/-- The claim's survival test: an item is kept unless it is mortal
(`lifeSpan > 0`) and past its deadline. -/
def claimKeepB (now : Int) (p : Nat × CacheItem) : Bool :=
  !(decide (0 < p.2.lifeSpan) && decide (p.2.lifeSpan ≤ now - p.2.accessedOn))

lemma expLoop_smallest (t : CacheTable) (now : Int)
    (l : List (Nat × CacheItem)) (s : Int) :
    (expLoop t now l s).2.1 = minAux s (remsGo now l) := by
  induction l generalizing s with
  | nil => rfl
  | cons p rest ih =>
    by_cases h0 : p.2.lifeSpan = 0
    · have hr : remsGo now (p :: rest) = remsGo now rest := by
        simp [remsGo, List.filterMap_cons, h0]
      simp only [expLoop, if_pos h0]
      rw [ih, hr]
    · by_cases h1 : p.2.lifeSpan ≤ now - p.2.accessedOn
      · have hr : remsGo now (p :: rest) = remsGo now rest := by
          simp [remsGo, List.filterMap_cons, h0, h1]
        simp only [expLoop, if_neg h0, if_pos h1]
        rw [ih, hr]
      · have hr : remsGo now (p :: rest)
            = (p.2.lifeSpan - (now - p.2.accessedOn)) :: remsGo now rest := by
          simp [remsGo, List.filterMap_cons, h0, h1]
        simp only [expLoop, if_neg h0, if_neg h1]
        rw [ih, hr]
        rfl

lemma minAux_pos_spec (rs : List Int) : ∀ s : Int, 0 < s → (∀ r ∈ rs, 0 < r) →
    (minAux s rs = s ∨ minAux s rs ∈ rs) ∧ minAux s rs ≤ s
      ∧ ∀ r ∈ rs, minAux s rs ≤ r := by
  induction rs with
  | nil =>
    intro s _ _
    exact ⟨Or.inl rfl, le_refl s, by simp⟩
  | cons r rs ih =>
    intro s hs h
    have hr : 0 < r := h r (List.mem_cons_self _ _)
    have hrest : ∀ x ∈ rs, 0 < x := fun x hx => h x (List.mem_cons_of_mem _ hx)
    by_cases hc : s = 0 ∨ r < s
    · have hrs : r < s := hc.resolve_left (by omega)
      have hm := ih r hr hrest
      have hstep : minAux s (r :: rs) = minAux r rs := by simp [minAux, hc]
      refine ⟨?_, ?_, ?_⟩
      · rcases hm.1 with h' | h'
        · right
          rw [hstep, h']
          exact List.mem_cons_self _ _
        · right
          rw [hstep]
          exact List.mem_cons_of_mem _ h'
      · rw [hstep]
        exact le_of_lt (lt_of_le_of_lt hm.2.1 hrs)
      · intro x hx
        rw [hstep]
        rcases List.mem_cons.mp hx with h' | h'
        · rw [h']
          exact hm.2.1
        · exact hm.2.2 x h'
    · have hsr : s ≤ r := by omega
      have hm := ih s hs hrest
      have hstep : minAux s (r :: rs) = minAux s rs := by simp [minAux, hc]
      refine ⟨?_, ?_, ?_⟩
      · rcases hm.1 with h' | h'
        · exact Or.inl (by rw [hstep, h'])
        · right
          rw [hstep]
          exact List.mem_cons_of_mem _ h'
      · rw [hstep]
        exact hm.2.1
      · intro x hx
        rw [hstep]
        rcases List.mem_cons.mp hx with h' | h'
        · rw [h']
          exact le_trans hm.2.1 hsr
        · exact hm.2.2 x h'

lemma minAux_zero_spec (rs : List Int) (h : ∀ r ∈ rs, 0 < r) :
    (rs = [] → minAux 0 rs = 0)
    ∧ (rs ≠ [] → minAux 0 rs ∈ rs ∧ ∀ r ∈ rs, minAux 0 rs ≤ r) := by
  cases rs with
  | nil => exact ⟨fun _ => rfl, fun h' => absurd rfl h'⟩
  | cons r rs =>
    refine ⟨fun h' => by simp at h', fun _ => ?_⟩
    have hr : 0 < r := h r (List.mem_cons_self _ _)
    have hrest : ∀ x ∈ rs, 0 < x := fun x hx => h x (List.mem_cons_of_mem _ hx)
    have hstep : minAux 0 (r :: rs) = minAux r rs := by simp [minAux]
    have hm := minAux_pos_spec rs r hr hrest
    constructor
    · rw [hstep]
      rcases hm.1 with h' | h'
      · rw [h']
        exact List.mem_cons_self _ _
      · exact List.mem_cons_of_mem _ h'
    · intro x hx
      rw [hstep]
      rcases List.mem_cons.mp hx with h' | h'
      · rw [h']
        exact hm.2.1
      · exact hm.2.2 x h'

lemma remsOf_pos (now : Int) (l : List (Nat × CacheItem)) :
    ∀ r ∈ remsOf now l, 0 < r := by
  intro r hr
  obtain ⟨p, _, hf⟩ := List.mem_filterMap.mp hr
  by_cases hcond : 0 < p.2.lifeSpan ∧ now - p.2.accessedOn < p.2.lifeSpan
  · obtain ⟨hc1, hc2⟩ := hcond
    rw [if_pos ⟨hc1, hc2⟩] at hf
    injection hf with hh
    omega
  · rw [if_neg hcond] at hf
    exact absurd hf (by simp)

lemma remsGo_eq_remsOf (now : Int) :
    ∀ l : List (Nat × CacheItem), (∀ p ∈ l, 0 ≤ p.2.lifeSpan) →
      remsGo now l = remsOf now l := by
  intro l
  induction l with
  | nil => intro _; rfl
  | cons p rest ih =>
    intro hpos
    have hp := hpos p (List.mem_cons_self _ _)
    have h2 := ih (fun q hq => hpos q (List.mem_cons_of_mem _ hq))
    by_cases h0 : p.2.lifeSpan = 0
    · have e1 : remsGo now (p :: rest) = remsGo now rest := by
        simp [remsGo, List.filterMap_cons, h0]
      have e2 : remsOf now (p :: rest) = remsOf now rest := by
        simp [remsOf, List.filterMap_cons, h0]
      rw [e1, e2, h2]
    · have h0' : 0 < p.2.lifeSpan := lt_of_le_of_ne hp (Ne.symm h0)
      by_cases h1 : p.2.lifeSpan ≤ now - p.2.accessedOn
      · have h1' : ¬ (now - p.2.accessedOn < p.2.lifeSpan) := not_lt.mpr h1
        have e1 : remsGo now (p :: rest) = remsGo now rest := by
          simp [remsGo, List.filterMap_cons, h0, h1]
        have e2 : remsOf now (p :: rest) = remsOf now rest := by
          simp [remsOf, List.filterMap_cons, h1']
        rw [e1, e2, h2]
      · have h1' : now - p.2.accessedOn < p.2.lifeSpan := not_le.mp h1
        have e1 : remsGo now (p :: rest)
            = (p.2.lifeSpan - (now - p.2.accessedOn)) :: remsGo now rest := by
          simp [remsGo, List.filterMap_cons, h0, h1]
        have e2 : remsOf now (p :: rest)
            = (p.2.lifeSpan - (now - p.2.accessedOn)) :: remsOf now rest := by
          simp [remsOf, List.filterMap_cons, h0', h1']
        rw [e1, e2, h2]

lemma keepB_eq_claimKeepB (now : Int) (p : Nat × CacheItem)
    (hp : 0 ≤ p.2.lifeSpan) : keepB now p = claimKeepB now p := by
  unfold keepB claimKeepB
  by_cases h0 : p.2.lifeSpan = 0
  · simp [h0]
  · have h0' : 0 < p.2.lifeSpan := by omega
    by_cases h1 : p.2.lifeSpan ≤ now - p.2.accessedOn
    · simp [h0, h0', h1, not_lt.mpr h1]
    · simp [h0, h0', h1, not_le.mp h1]

lemma expirationCheck_cleanupInterval (t : CacheTable) (now : Int) :
    (expirationCheck t now).1.cleanupInterval = minAux 0 (remsGo now t.items) := by
  unfold expirationCheck
  exact expLoop_smallest t now t.items 0

/-- An item with a negative lifespan, last accessed at time 0. -/
def cexNegItem : CacheItem :=
  { key := 1, data := 0, lifeSpan := -1, createdOn := 0, accessedOn := 0,
    accessCount := 0, aboutToExpire := [] }

/-- A table holding only `cexNegItem`. -/
def cexNegTable : CacheTable :=
  { name := "t", items := [(1, cexNegItem)], timerArmed := false, cleanupInterval := 0,
    loadData := none, addedItem := [], aboutToDeleteItem := [] }

/-- C2 counterexample: the claim says `expirationCheck` deletes exactly the
items with `lifeSpan > 0` past their deadline, but the code also deletes a
negative-lifespan item (it only skips `lifeSpan == 0`): at time 0 the scan
empties `cexNegTable` while the claim's predicate would keep its item. -/
theorem spec_C2_counterexample :
    (expirationCheck cexNegTable 0).1.items
      ≠ cexNegTable.items.filter (claimKeepB 0) := by
  decide

/-- C2 (amended: for tables whose stored lifespans are all nonnegative): one
`expirationCheck` run keeps exactly the items that are immortal
(`lifeSpan == 0`) or not yet past their deadline — deleting exactly the
mortal expired ones — and sets `cleanupInterval` to the minimum remaining
lifetime `lifeSpan - (now - accessedOn)` over the surviving mortal items, or
0 when no mortal item survives. -/
theorem spec_C2 (t : CacheTable) (now : Int)
    (hpos : ∀ p ∈ t.items, 0 ≤ p.2.lifeSpan) :
    (expirationCheck t now).1.items = t.items.filter (claimKeepB now)
    ∧ (remsOf now t.items = [] → (expirationCheck t now).1.cleanupInterval = 0)
    ∧ (remsOf now t.items ≠ [] →
        (expirationCheck t now).1.cleanupInterval ∈ remsOf now t.items
        ∧ ∀ r ∈ remsOf now t.items, (expirationCheck t now).1.cleanupInterval ≤ r) := by
  have hitems : (expirationCheck t now).1.items = t.items.filter (claimKeepB now) := by
    rw [expirationCheck_items]
    exact List.filter_congr (fun p hp => keepB_eq_claimKeepB now p (hpos p hp))
  have hci : (expirationCheck t now).1.cleanupInterval = minAux 0 (remsOf now t.items) := by
    rw [expirationCheck_cleanupInterval, remsGo_eq_remsOf now t.items hpos]
  have hmz := minAux_zero_spec (remsOf now t.items) (remsOf_pos now t.items)
  refine ⟨hitems, ?_, ?_⟩
  · intro he
    rw [hci, he]
    rfl
  · intro hne
    rw [hci]
    exact hmz.2 hne

/-- C2 witness: the amended scan equations evaluated on the concrete table of
immortal items at time 5. -/
theorem spec_C2_witness :
    (expirationCheck exTable 5).1.items = exTable.items.filter (claimKeepB 5) :=
  (spec_C2 exTable 5 (by decide)).1

/-! ### C3: MostAccessed -/

instance (t : CacheTable) : Decidable (WF t) := by
  unfold WF
  infer_instance

lemma MostAccessed_eq (t : CacheTable) (n : Int) :
    MostAccessed t n
      = ((sortPairs (t.items.map (fun kv => CacheItemPair.mk kv.1 kv.2.accessCount))).take
          n.toNat).filterMap (fun pr => assocLookup pr.Key t.items) := rfl

lemma mem_insertPair {a x : CacheItemPair} {l : List CacheItemPair} :
    a ∈ insertPair x l ↔ a = x ∨ a ∈ l := by
  induction l with
  | nil => simp [insertPair]
  | cons y ys ih =>
    by_cases h : y.AccessCount < x.AccessCount
    · simp [insertPair, h, List.mem_cons]
    · simp [insertPair, h, List.mem_cons, ih]
      tauto

lemma pairwise_insertPair {x : CacheItemPair} {l : List CacheItemPair}
    (h : l.Pairwise (fun a b => b.AccessCount ≤ a.AccessCount)) :
    (insertPair x l).Pairwise (fun a b => b.AccessCount ≤ a.AccessCount) := by
  induction l with
  | nil => simp [insertPair]
  | cons y ys ih =>
    rcases List.pairwise_cons.mp h with ⟨hy, hys⟩
    by_cases hcmp : y.AccessCount < x.AccessCount
    · simp only [insertPair, if_pos hcmp]
      refine List.pairwise_cons.mpr ⟨?_, h⟩
      intro b hb
      rcases List.mem_cons.mp hb with hb' | hb'
      · rw [hb']
        exact le_of_lt hcmp
      · exact le_trans (hy b hb') (le_of_lt hcmp)
    · simp only [insertPair, if_neg hcmp]
      refine List.pairwise_cons.mpr ⟨?_, ih hys⟩
      intro b hb
      rcases mem_insertPair.mp hb with hb' | hb'
      · rw [hb']
        exact not_lt.mp hcmp
      · exact hy b hb'

lemma pairwise_sortPairs (l : List CacheItemPair) :
    (sortPairs l).Pairwise (fun a b => b.AccessCount ≤ a.AccessCount) := by
  induction l with
  | nil => simp [sortPairs]
  | cons x xs ih => exact pairwise_insertPair ih

lemma mem_sortPairs {a : CacheItemPair} {l : List CacheItemPair}
    (h : a ∈ sortPairs l) : a ∈ l := by
  induction l with
  | nil => simp [sortPairs] at h
  | cons x xs ih =>
    rcases mem_insertPair.mp (by simpa [sortPairs] using h) with h' | h'
    · rw [h']
      exact List.mem_cons_self _ _
    · exact List.mem_cons_of_mem _ (ih h')

lemma assocLookup_of_nodup {l : List (Nat × CacheItem)} (hn : (l.map Prod.fst).Nodup)
    {k : Nat} {v : CacheItem} (h : (k, v) ∈ l) : assocLookup k l = some v := by
  induction l with
  | nil => simp at h
  | cons p rest ih =>
    simp only [List.map_cons, List.nodup_cons] at hn
    rcases List.mem_cons.mp h with heq | hmem
    · rw [← heq]
      simp [assocLookup]
    · have hk : p.1 ≠ k := by
        intro hk
        exact hn.1 (hk ▸ List.mem_map_of_mem Prod.fst hmem)
      simp only [assocLookup, if_neg hk]
      exact ih hn.2 hmem

lemma filterMap_lookup_map {l : List CacheItemPair} {t : CacheTable}
    (h : ∀ pr ∈ l, ∃ i, assocLookup pr.Key t.items = some i
        ∧ i.accessCount = pr.AccessCount) :
    (l.filterMap (fun pr => assocLookup pr.Key t.items)).map (fun i => i.accessCount)
      = l.map (fun pr => pr.AccessCount) := by
  induction l with
  | nil => rfl
  | cons pr rest ih =>
    obtain ⟨i, hi, hacc⟩ := h pr (List.mem_cons_self _ _)
    simp only [List.filterMap_cons, hi, List.map_cons, hacc]
    rw [ih (fun q hq => h q (List.mem_cons_of_mem _ hq))]

/-- C3: `MostAccessed(n)` returns at most `n` items, sorted in descending
order of access count; on the concrete table with access counts
`[5, 1, 9, 3]`, `MostAccessed(2)` returns the items with counts 9 and 5 in
that order. -/
theorem spec_C3 (t : CacheTable) (n : Int) (hwf : WF t) :
    (MostAccessed t n).length ≤ n.toNat
    ∧ ((MostAccessed t n).map (fun i => i.accessCount)).Pairwise (fun a b => b ≤ a)
    ∧ (MostAccessed exTable 2).map (fun i => i.accessCount) = [9, 5] := by
  refine ⟨?_, ?_, by decide⟩
  · rw [MostAccessed_eq]
    exact le_trans (List.length_filterMap_le _ _) (List.length_take_le _ _)
  · rw [MostAccessed_eq]
    have hres : ∀ pr ∈ (sortPairs (t.items.map
        (fun kv => CacheItemPair.mk kv.1 kv.2.accessCount))).take n.toNat,
        ∃ i, assocLookup pr.Key t.items = some i ∧ i.accessCount = pr.AccessCount := by
      intro pr hpr
      have h1 : pr ∈ sortPairs (t.items.map
          (fun kv => CacheItemPair.mk kv.1 kv.2.accessCount)) :=
        (List.take_sublist _ _).subset hpr
      have h2 := mem_sortPairs h1
      obtain ⟨kv, hkv, hpr_eq⟩ := List.mem_map.mp h2
      refine ⟨kv.2, ?_, ?_⟩
      · have hmem : (kv.1, kv.2) ∈ t.items := by simpa using hkv
        have := assocLookup_of_nodup hwf hmem
        rw [← hpr_eq]
        exact this
      · rw [← hpr_eq]
    rw [filterMap_lookup_map hres, List.pairwise_map]
    exact List.Pairwise.sublist (List.take_sublist _ _) (pairwise_sortPairs _)

/-- C3 witness: the bound, the descending order and the concrete ranking
evaluated on the four-item table. -/
theorem spec_C3_witness :
    (MostAccessed exTable 2).length ≤ (2 : Int).toNat
    ∧ ((MostAccessed exTable 2).map (fun i => i.accessCount)).Pairwise
        (fun a b => b ≤ a)
    ∧ (MostAccessed exTable 2).map (fun i => i.accessCount) = [9, 5] :=
  spec_C3 exTable 2 (by decide)

/-! ### C9: per-item evolution of `accessedOn` and `accessCount` -/

/-- How an item found at key `k` after one operation at time `now` relates to
the state before: it is either a freshly created item (timestamps `now`,
count 0), or it descends from an item stored at `k` before — untouched in
both fields, or advanced by exactly one `KeepAlive` — and in the latter case
neither field ever moves backwards (given that the clock is ahead of the
stored timestamp). -/
def ItemEvolution (t : CacheTable) (now : Int) (k : Nat) (i' : CacheItem) : Prop :=
  (i'.createdOn = now ∧ i'.accessedOn = now ∧ i'.accessCount = 0)
  ∨ ∃ i, (k, i) ∈ t.items
      ∧ ((i'.accessedOn = i.accessedOn ∧ i'.accessCount = i.accessCount)
        ∨ i' = KeepAlive i now)
      ∧ (i.accessedOn ≤ now → i.accessedOn ≤ i'.accessedOn ∧ i.accessCount ≤ i'.accessCount)

lemma evolution_untouched {t : CacheTable} {now : Int} {k : Nat} {i' : CacheItem}
    (h : (k, i') ∈ t.items) : ItemEvolution t now k i' :=
  Or.inr ⟨i', h, Or.inl ⟨rfl, rfl⟩, fun _ => ⟨le_refl _, le_refl _⟩⟩

lemma evolution_same_fields {t : CacheTable} {now : Int} {k : Nat} {i i' : CacheItem}
    (h : (k, i) ∈ t.items) (h1 : i'.accessedOn = i.accessedOn)
    (h2 : i'.accessCount = i.accessCount) : ItemEvolution t now k i' :=
  Or.inr ⟨i, h, Or.inl ⟨h1, h2⟩, fun _ => ⟨le_of_eq h1.symm, le_of_eq h2.symm⟩⟩

lemma evolution_keepAlive {t : CacheTable} {now : Int} {k : Nat} {i : CacheItem}
    (h : (k, i) ∈ t.items) : ItemEvolution t now k (KeepAlive i now) :=
  Or.inr ⟨i, h, Or.inr rfl,
    fun hle => ⟨by simpa [KeepAlive] using hle, by simp [KeepAlive]⟩⟩

lemma evolution_fresh {t : CacheTable} {now : Int} {k : Nat} {i' : CacheItem}
    (h1 : i'.createdOn = now) (h2 : i'.accessedOn = now) (h3 : i'.accessCount = 0) :
    ItemEvolution t now k i' := Or.inl ⟨h1, h2, h3⟩

lemma evolution_addInternal_new {t : CacheTable} {now : Int} {k key : Nat}
    {l d : Int} {i' : CacheItem}
    (h : (k, i') ∈ (addInternal t (NewCacheItem key l d now) now).1.items) :
    ItemEvolution t now k i' := by
  rcases mem_addInternal h with he | he
  · have hi : i' = NewCacheItem key l d now := congrArg Prod.snd he
    exact evolution_fresh (by rw [hi]; rfl) (by rw [hi]; rfl) (by rw [hi]; rfl)
  · exact evolution_untouched he

lemma setAddedItemCallback_items (t : CacheTable) (f : Nat) :
    (SetAddedItemCallback t f).items = t.items := by
  unfold SetAddedItemCallback
  by_cases h : t.addedItem.length > 0 <;> simp [h]

lemma setExpire_fields (i : CacheItem) (f : Nat) :
    (SetAboutToExpireCallback i f).accessedOn = i.accessedOn
    ∧ (SetAboutToExpireCallback i f).accessCount = i.accessCount := by
  unfold SetAboutToExpireCallback
  by_cases h : i.aboutToExpire.length > 0 <;> simp [h]

/-- C9: `KeepAlive` sets `accessedOn` to the current time and increments
`accessCount` by exactly one, and across every operation of the table any
item present afterwards is either freshly created or descends from the item
stored at the same key — untouched or keep-alive-advanced — so neither field
ever decreases (under a clock that never runs backwards). -/
theorem spec_C9 (t : CacheTable) (op : Op) (now : Int) (k : Nat) (i' : CacheItem)
    (h : (k, i') ∈ (step t op now).items) :
    (∀ j : CacheItem, KeepAlive j now
        = { j with accessedOn := now, accessCount := j.accessCount + 1 })
    ∧ ItemEvolution t now k i' := by
  refine ⟨fun j => rfl, ?_⟩
  cases op with
  | add key l d =>
    have h' : (k, i') ∈ (addInternal t (NewCacheItem key l d now) now).1.items := h
    exact evolution_addInternal_new h'
  | notFoundAdd key l d =>
    cases hl : assocLookup key t.items with
    | some r =>
      have h' : (k, i') ∈ t.items := by simpa [step, NotFoundAdd, hl] using h
      exact evolution_untouched h'
    | none =>
      have h' : (k, i') ∈ (addInternal t (NewCacheItem key l d now) now).1.items := by
        simpa [step, NotFoundAdd, hl] using h
      exact evolution_addInternal_new h'
  | delete key =>
    cases hl : assocLookup key t.items with
    | none =>
      have h' : (k, i') ∈ t.items := by simpa [step, Delete, deleteInternal, hl] using h
      exact evolution_untouched h'
    | some r =>
      have h' : (k, i') ∈ t.items.filter (fun p => decide (p.1 ≠ key)) := by
        simpa [step, Delete, deleteInternal, hl] using h
      exact evolution_untouched (List.mem_filter.mp h').1
  | value key args =>
    cases hl : assocLookup key t.items with
    | some r =>
      have h' : (k, i') ∈ assocPut key (KeepAlive r now) t.items := by
        simpa [step, Value, hl] using h
      rcases mem_assocPut h' with he | he
      · have hk : k = key := congrArg Prod.fst he
        have hi : i' = KeepAlive r now := congrArg Prod.snd he
        rw [hk, hi]
        exact evolution_keepAlive (assocLookup_mem hl)
      · exact evolution_untouched he
    | none =>
      cases hload : t.loadData with
      | none =>
        have h' : (k, i') ∈ t.items := by simpa [step, Value, hl, hload] using h
        exact evolution_untouched h'
      | some loader =>
        cases hres : loader key args with
        | none =>
          have h' : (k, i') ∈ t.items := by
            simpa [step, Value, hl, hload, hres] using h
          exact evolution_untouched h'
        | some li =>
          have h' : (k, i') ∈ (addInternal t
              (NewCacheItem key li.lifeSpan li.data now) now).1.items := by
            simpa [step, Value, hl, hload, hres, Add] using h
          exact evolution_addInternal_new h'
  | flush => simp [step, Flush] at h
  | expCheck =>
    have h' : (k, i') ∈ (expirationCheck t now).1.items := h
    exact evolution_untouched (mem_expirationCheck_items h')
  | setAddedCb f =>
    have heq : (step t (Op.setAddedCb f) now).items = t.items :=
      setAddedItemCallback_items t f
    rw [heq] at h
    exact evolution_untouched h
  | addAddedCb f =>
    have h' : (k, i') ∈ t.items := h
    exact evolution_untouched h'
  | removeAddedCbs =>
    have h' : (k, i') ∈ t.items := h
    exact evolution_untouched h'
  | setDeleteCb f =>
    have heq : (step t (Op.setDeleteCb f) now).items = t.items :=
      setAboutToDeleteItemCallback_items t f
    rw [heq] at h
    exact evolution_untouched h
  | addDeleteCb f =>
    have h' : (k, i') ∈ t.items := h
    exact evolution_untouched h'
  | removeDeleteCbs =>
    have h' : (k, i') ∈ t.items := h
    exact evolution_untouched h'
  | setItemExpireCb key f =>
    have h' : (k, i') ∈ assocUpdate key (fun i => SetAboutToExpireCallback i f) t.items := h
    rcases mem_assocUpdate h' with he | ⟨v, hv, hp⟩
    · exact evolution_untouched he
    · have hk : k = key := congrArg Prod.fst hp
      have hi : i' = SetAboutToExpireCallback v f := congrArg Prod.snd hp
      refine evolution_same_fields (by rw [hk]; exact hv) ?_ ?_
      · rw [hi]
        exact (setExpire_fields v f).1
      · rw [hi]
        exact (setExpire_fields v f).2
  | addItemExpireCb key f =>
    have h' : (k, i') ∈ assocUpdate key (fun i => AddAboutToExpireCallback i f) t.items := h
    rcases mem_assocUpdate h' with he | ⟨v, hv, hp⟩
    · exact evolution_untouched he
    · have hk : k = key := congrArg Prod.fst hp
      have hi : i' = AddAboutToExpireCallback v f := congrArg Prod.snd hp
      refine evolution_same_fields (by rw [hk]; exact hv) ?_ ?_
      · rw [hi]
        rfl
      · rw [hi]
        rfl
  | removeItemExpireCbs key =>
    have h' : (k, i') ∈ assocUpdate key RemoveAboutToExpireCallback t.items := h
    rcases mem_assocUpdate h' with he | ⟨v, hv, hp⟩
    · exact evolution_untouched he
    · have hk : k = key := congrArg Prod.fst hp
      have hi : i' = RemoveAboutToExpireCallback v := congrArg Prod.snd hp
      refine evolution_same_fields (by rw [hk]; exact hv) ?_ ?_
      · rw [hi]
        rfl
      · rw [hi]
        rfl

/-- C9 witness: after appending an added-item callback, the item stored at
key 0 still satisfies the evolution relation. -/
theorem spec_C9_witness :
    (∀ j : CacheItem, KeepAlive j 0
        = { j with accessedOn := 0, accessCount := j.accessCount + 1 })
    ∧ ItemEvolution exTable 0 0 (exItem 0 5) :=
  spec_C9 exTable (Op.addAddedCb 4) 0 0 (exItem 0 5) (by decide)

end Cache2go
